import Mathlib

/-!
Verification of the `ml-training` pipeline of the pomodoro-blocker-extension
repository: the trainer's text preprocessing (`train_model.py`), the exported
companion scorer (`VideoClassifier` in `export_model_for_extension.py`), the
exporter's artifact construction (`export_to_json`), and the standalone
predictor (`predict.py`).

Strings are modelled as `List Char` over Unicode scalar values.  JavaScript
and Python floating-point numbers are idealised: artifact parameters (IDF
weights, coefficients, log-probabilities) as rationals, and the derived
quantities that involve `sqrt`/`exp` as real numbers.
-/

namespace PomodoroML

/-- The ASCII space character U+0020. -/
def spaceChar : Char := Char.ofNat 32

/-- Membership in the regex character class `[a-z0-9]` (code points 97-122
and 48-57), the characters kept by the substitution
`re.sub(r'[^a-z0-9\s]', '', text)` in `train_model.preprocess_text` and by
`.replace(/[^a-z0-9\s]/g, '')` in `VideoClassifier.preprocessText`, besides
whitespace. -/
def isLowerAlnum (c : Char) : Bool :=
  decide ((97 ≤ c.toNat ∧ c.toNat ≤ 122) ∨ (48 ≤ c.toNat ∧ c.toNat ≤ 57))

/-- The character class matched by Python's regex `\s` on `str` patterns:
exactly the characters with `str.isspace()` true, namely tab through
carriage return (U+0009-U+000D), the separators U+001C-U+001F, space,
next line U+0085, no-break space U+00A0, and the Unicode space separators
U+1680, U+2000-U+200A, U+2028, U+2029, U+202F, U+205F, U+3000. -/
def pySpace (c : Char) : Bool :=
  decide ((9 ≤ c.toNat ∧ c.toNat ≤ 13) ∨ c.toNat = 32 ∨
    (28 ≤ c.toNat ∧ c.toNat ≤ 31) ∨ c.toNat = 0x85 ∨ c.toNat = 0xa0 ∨
    c.toNat = 0x1680 ∨ (0x2000 ≤ c.toNat ∧ c.toNat ≤ 0x200a) ∨
    c.toNat = 0x2028 ∨ c.toNat = 0x2029 ∨ c.toNat = 0x202f ∨
    c.toNat = 0x205f ∨ c.toNat = 0x3000)

/-- The character class matched by JavaScript's regex `\s` (ECMA-262
WhiteSpace plus LineTerminator): tab through carriage return
(U+0009-U+000D), space, no-break space U+00A0, the Unicode space
separators U+1680, U+2000-U+200A, U+2028, U+2029, U+202F, U+205F, U+3000,
and the zero-width no-break space U+FEFF.  Unlike Python's `\s` it does
not contain U+001C-U+001F or U+0085, and Python's does not contain
U+FEFF. -/
def jsSpace (c : Char) : Bool :=
  decide ((9 ≤ c.toNat ∧ c.toNat ≤ 13) ∨ c.toNat = 32 ∨ c.toNat = 0xa0 ∨
    c.toNat = 0x1680 ∨ (0x2000 ≤ c.toNat ∧ c.toNat ≤ 0x200a) ∨
    c.toNat = 0x2028 ∨ c.toNat = 0x2029 ∨ c.toNat = 0x202f ∨
    c.toNat = 0x205f ∨ c.toNat = 0x3000 ∨ c.toNat = 0xfeff)

/-- Lower-casing of a single character, modelled on the ASCII range
(A-Z, code points 65-90, map to a-z by adding 32).  Python's `str.lower()`
and JavaScript's `toLowerCase()` both apply the identical Unicode default
case map; the claims examined here are insensitive to the non-ASCII part
of that map because every non-ASCII letter is removed by the subsequent
character filter on both sides. -/
def lowerChar (c : Char) : Char :=
  if 65 ≤ c.toNat ∧ c.toNat ≤ 90 then Char.ofNat (c.toNat + 32) else c

/-- The substitution `re.sub(r'\s+', ' ', text)` (Python), identically
`.replace(/\s+/g, ' ')` (JavaScript): each maximal run of characters
satisfying `ws` is replaced by a single space. -/
def collapseWS (ws : Char → Bool) : List Char → List Char
  | [] => []
  | [c] => if ws c then [spaceChar] else [c]
  | c :: d :: rest =>
    if ws c && ws d then collapseWS ws (d :: rest)
    else (if ws c then spaceChar else c) :: collapseWS ws (d :: rest)

/-- Python's `str.strip()` / JavaScript's `trim()`: remove the characters
satisfying `ws` from both ends of the string. -/
def stripWS (ws : Char → Bool) (l : List Char) : List Char :=
  ((l.dropWhile ws).reverse.dropWhile ws).reverse

/-- `preprocess_text` from `train_model.py` (also reused by the trainer's
`extract_features`): lower-case, delete the characters matching
`[^a-z0-9\s]`, replace each `\s+` run by one space, and strip, with the
Python semantics of `\s` and `strip`. -/
def preprocess_text (text : List Char) : List Char :=
  stripWS pySpace (collapseWS pySpace
    ((text.map lowerChar).filter (fun c => isLowerAlnum c || pySpace c)))

/-- `VideoClassifier.preprocessText` from the companion scorer emitted by
`export_model_for_extension.py`: `toLowerCase`, `.replace(/[^a-z0-9\s]/g,
'')`, `.replace(/\s+/g, ' ')`, `.trim()`, with the JavaScript semantics
of `\s` and `trim`. -/
def preprocessText (text : List Char) : List Char :=
  stripWS jsSpace (collapseWS jsSpace
    ((text.map lowerChar).filter (fun c => isLowerAlnum c || jsSpace c)))

example : preprocess_text (("  Hello,  World! ").toList) = ("hello world").toList := by decide

example : preprocessText (("  Hello,  World! ").toList) = ("hello world").toList := by decide

example : preprocess_text (("Python 3.12\tRocks").toList) = ("python 312 rocks").toList := by
  decide

example :
    preprocess_text ([Char.ofNat 97, Char.ofNat 28, Char.ofNat 98]) =
      [Char.ofNat 97, spaceChar, Char.ofNat 98] := by decide

example : preprocessText ([Char.ofNat 97, Char.ofNat 28, Char.ofNat 98]) =
    [Char.ofNat 97, Char.ofNat 98] := by decide

/-- `VideoClassifier.extractNgrams(text, n)`: split the text on single
spaces (`text.split(' ')`, empty segments kept), then for each window
position `0 ≤ i ≤ words.length - n` join `words.slice(i, i + n)` with a
space. -/
def extractNgrams (text : List Char) (n : ℕ) : List (List Char) :=
  let words := text.splitOn spaceChar
  (List.range (words.length + 1 - n)).map
    (fun i => List.intercalate [spaceChar] ((words.drop i).take n))

/-- The n-gram list built inside `VideoClassifier.vectorize`: unigrams are
pushed when `this.ngramRange[0] <= 1` and bigrams when
`this.ngramRange[1] >= 2` — only these two sizes, whatever the configured
range. -/
def vectorizeNgrams (range : ℕ × ℕ) (processed : List Char) : List (List Char) :=
  (if range.1 ≤ 1 then extractNgrams processed 1 else []) ++
  (if 2 ≤ range.2 then extractNgrams processed 2 else [])

/-- The model-specific parameters the `VideoClassifier` constructor copies
out of the JSON artifact, one constructor per exported `type`
discriminator. -/
inductive ModelKind
  | logistic_regression (coefficients : List ℚ) (intercept : ℚ)
  | naive_bayes (featureLogProb : List ℚ) (classLogPrior : ℚ)

/-- The state of a constructed `VideoClassifier`: the artifact's
vocabulary (a JSON object, modelled as an association list), IDF array,
`max_features` and `ngram_range`, plus the kind-specific parameters. -/
structure VideoClassifier where
  kind : ModelKind
  vocabulary : List (List Char × ℕ)
  idf : List ℚ
  maxFeatures : ℕ
  ngramRange : ℕ × ℕ

/-- JavaScript object property lookup `this.vocabulary[ngram]`, `none`
standing for `undefined`. -/
def vocabLookup : List (List Char × ℕ) → List Char → Option ℕ
  | [], _ => none
  | p :: rest, g => if p.1 = g then some p.2 else vocabLookup rest g

/-- The expression `this.idf[index] || 1`: the IDF value at `index`, with
JavaScript falsiness — an out-of-range read (`undefined`) and the value
`0` both yield `1`. -/
def idfOr1 (idf : List ℚ) (index : ℕ) : ℚ :=
  if idf.getD index 0 = 0 then 1 else idf.getD index 0

/-- One iteration of the `ngrams.forEach` loop in
`VideoClassifier.vectorize`: look the n-gram up in the vocabulary and,
when the index is defined and below `maxFeatures`, store
`this.idf[index] || 1` at that index of the features array. -/
def applyNgram (m : VideoClassifier) (features : List ℚ) (g : List Char) : List ℚ :=
  match vocabLookup m.vocabulary g with
  | none => features
  | some index =>
    if index < m.maxFeatures then features.set index (idfOr1 m.idf index) else features

/-- The features array of `VideoClassifier.vectorize` after the `forEach`
loop and before L2 normalisation: `new Array(maxFeatures).fill(0)`
updated by `applyNgram` for each extracted n-gram in order. -/
def rawFeatures (m : VideoClassifier) (ngrams : List (List Char)) : List ℚ :=
  ngrams.foldl (applyNgram m) (List.replicate m.maxFeatures 0)

/-- The token list `VideoClassifier.vectorize` looks up for an input
text: normalise with `preprocessText`, then extract the n-grams. -/
def scorerNgrams (m : VideoClassifier) (text : List Char) : List (List Char) :=
  vectorizeNgrams m.ngramRange (preprocessText text)

/-- The sum of squares `features.reduce((sum, x) => sum + x * x, 0)`. -/
def sumSq (l : List ℚ) : ℚ := (l.map (fun x => x * x)).sum

/-- The squared L2 norm of a real vector, `(v.map fun x => x * x).sum`. -/
noncomputable def l2norm (v : List ℝ) : ℝ := Real.sqrt ((v.map (fun x => x * x)).sum)

/-- `VideoClassifier.vectorize`: build the raw features, compute
`norm = Math.sqrt(features.reduce((sum, x) => sum + x * x, 0))`, and
divide each entry by the norm when `norm > 0`, otherwise return the
features unchanged (embedded into ℝ). -/
noncomputable def vectorize (m : VideoClassifier) (text : List Char) : List ℝ :=
  let features := rawFeatures m (scorerNgrams m text)
  let norm : ℝ := Real.sqrt ((sumSq features : ℚ) : ℝ)
  if 0 < norm then features.map (fun x : ℚ => (x : ℝ) / norm)
  else features.map (fun x : ℚ => (x : ℝ))

/-- The logistic sigmoid `1 / (1 + Math.exp(-x))`. -/
noncomputable def sigmoid (x : ℝ) : ℝ := 1 / (1 + Real.exp (-x))

/-- A JavaScript number in the scorer's arithmetic, idealised as a
real value or NaN (`none`).  NaN arises from reading a parameter array
past its end (`undefined`, which any arithmetic turns into NaN) and
propagates through `+`, `*`, `exp` and division; every `<` or `>`
comparison against NaN is false. -/
noncomputable def jsGet (l : List ℚ) (i : ℕ) : Option ℝ :=
  (l[i]?).map (fun v : ℚ => (v : ℝ))

/-- JavaScript addition on possibly-NaN values: NaN absorbs. -/
noncomputable def jsAdd : Option ℝ → Option ℝ → Option ℝ
  | some x, some y => some (x + y)
  | _, _ => none

/-- JavaScript multiplication on possibly-NaN values: NaN absorbs
(in particular `undefined * 0 = NaN`, not 0). -/
noncomputable def jsMul : Option ℝ → Option ℝ → Option ℝ
  | some x, some y => some (x * y)
  | _, _ => none

/-- The record `{prediction, probability, confidence}` returned by
`VideoClassifier.predict`; `none` stands for NaN. -/
structure ScoreResult where
  prediction : ℕ
  probability : Option ℝ
  confidence : Option ℝ

/-- The length of the kind-specific parameter vector the scoring loop
reads: `coefficients` for logistic regression, `featureLogProb` for
naive bayes. -/
def kindParamsLength : ModelKind → ℕ
  | .logistic_regression coefficients _ => coefficients.length
  | .naive_bayes featureLogProb _ => featureLogProb.length

/-- `VideoClassifier.predict(title, description = '')`: vectorize the
combined text `` `${title} ${description}` `` and score it according to
the model kind — `sigmoid(intercept + Σ coefficients[i] * features[i])`
for logistic regression, `sigmoid(classLogPrior + Σ_{features[i] > 0}
featureLogProb[i])` for naive bayes; prediction is `probability > 0.5 ?
1 : 0` (false for NaN, hence 0) and confidence is
`Math.abs(probability - 0.5) * 2`.  Both loops run over
`features.length = maxFeatures` indices, so a parameter array shorter
than `maxFeatures` is read past its end: the JavaScript yields
`undefined`, the products/sums become NaN, and NaN poisons the score,
the probability and the confidence — modelled by `jsGet`/`jsAdd`/
`jsMul` over `Option ℝ`. -/
noncomputable def predict (m : VideoClassifier) (title description : List Char) : ScoreResult :=
  let combinedText := title ++ spaceChar :: description
  let features := vectorize m combinedText
  match m.kind with
  | .logistic_regression coefficients intercept =>
    let score : Option ℝ := (List.range features.length).foldl
      (fun s i => jsAdd s (jsMul (jsGet coefficients i) (some (features.getD i 0))))
      (some (intercept : ℝ))
    let probability := score.map sigmoid
    { prediction :=
        match probability with
        | some p => if 1/2 < p then 1 else 0
        | none => 0
      probability := probability
      confidence := probability.map (fun p => |p - 1/2| * 2) }
  | .naive_bayes featureLogProb classLogPrior =>
    let logProb : Option ℝ := (List.range features.length).foldl
      (fun s i => if 0 < features.getD i 0 then jsAdd s (jsGet featureLogProb i) else s)
      (some (classLogPrior : ℝ))
    let probability := logProb.map sigmoid
    { prediction :=
        match probability with
        | some p => if 1/2 < p then 1 else 0
        | none => 0
      probability := probability
      confidence := probability.map (fun p => |p - 1/2| * 2) }

example :
    extractNgrams (("a b c").toList) 2 = [("a b").toList, ("b c").toList] := by decide

example :
    vectorizeNgrams (1, 2) (("a b").toList) =
      [("a").toList, ("b").toList, ("a b").toList] := by decide

example :
    vectorizeNgrams (3, 3) (("a b c").toList) = [("a b").toList, ("b c").toList] := by
  decide

example :
    rawFeatures
      { kind := .logistic_regression [] 0, vocabulary := [(("a").toList, 0)],
        idf := [3], maxFeatures := 2, ngramRange := (1, 2) }
      [("a").toList, ("a").toList, ("b").toList] = [3, 0] := by decide

/-- The attributes of a loaded scikit-learn estimator that
`export_to_json` inspects: `coef_` (a matrix, row 0 is read),
`intercept_` (a vector, entry 0 is read, and possibly absent even when
`coef_` is present), `feature_log_prob_` (a matrix, row 1 — the
educational class — is read) and `class_log_prior_` (a vector, entry 1
is read, only ever touched on the naive-bayes branch).  `none` models a
failing `hasattr`. -/
structure SkModel where
  coef_ : Option (List (List ℚ))
  intercept_ : Option (List ℚ)
  feature_log_prob_ : Option (List (List ℚ))
  class_log_prior_ : List ℚ

/-- The state of a fitted `TfidfVectorizer` that the exporter
serialises: `vocabulary_`, `idf_`, and the constructor parameters
`max_features` and `ngram_range`. -/
structure VecState where
  vocabulary_ : List (List Char × ℕ)
  idf_ : List ℚ
  max_features : ℕ
  ngram_range : ℕ × ℕ

/-- The JSON object written by `export_to_json`: the `type`
discriminator, the kind-specific parameters (absent keys modelled as
`none`), and the vectorizer state. -/
structure ExportData where
  type : String
  coefficients : Option (List ℚ)
  intercept : Option ℚ
  feature_log_prob : Option (List ℚ)
  class_log_prior : Option ℚ
  vocabulary : List (List Char × ℕ)
  idf : List ℚ
  max_features : ℕ
  ngram_range : ℕ × ℕ

/-- The file writes and console messages produced by one run of
`export_to_json`. -/
structure ExportOutcome where
  fileWrites : List (String × ExportData)
  messages : List String

/-- The path `f'models/{model_type}_model.pkl'` that `export_to_json`
loads; the `--model` name is used only to build this path. -/
def model_path (model_type : String) : String :=
  "models/" ++ model_type ++ "_model.pkl"

/-- `export_to_json(model_type, output_file)` from
`export_model_for_extension.py`, over an abstract file system `fs`
mapping paths to persisted `{model, vectorizer}` pairs (`none` = the
path does not exist).  Mirrors the source's control flow: missing file
prints and returns without writing; a model with `coef_` is exported
with type `logistic_regression` (intercept `model.intercept_[0] if
hasattr(model, 'intercept_') else 0`); otherwise a model with
`feature_log_prob_` is exported with type `naive_bayes` (row 1 and
prior entry 1); otherwise it prints "Model type not supported for JSON
export" and returns without writing.  Only the decision-relevant
console messages are retained. -/
def export_to_json (fs : String → Option (SkModel × VecState))
    (model_type output_file : String) : ExportOutcome :=
  let mp := model_path model_type
  match fs mp with
  | none => { fileWrites := [], messages := ["Model not found: " ++ mp] }
  | some (model, vectorizer) =>
    match model.coef_ with
    | some cs =>
      let intercept : ℚ :=
        match model.intercept_ with
        | some l => l.getD 0 0
        | none => 0
      { fileWrites := [(output_file,
          { type := "logistic_regression", coefficients := some (cs.getD 0 []),
            intercept := some intercept, feature_log_prob := none,
            class_log_prior := none, vocabulary := vectorizer.vocabulary_,
            idf := vectorizer.idf_, max_features := vectorizer.max_features,
            ngram_range := vectorizer.ngram_range })],
        messages := ["Model exported to " ++ output_file] }
    | none =>
      match model.feature_log_prob_ with
      | some fl =>
        { fileWrites := [(output_file,
            { type := "naive_bayes", coefficients := none, intercept := none,
              feature_log_prob := some (fl.getD 1 []),
              class_log_prior := some (model.class_log_prior_.getD 1 0),
              vocabulary := vectorizer.vocabulary_, idf := vectorizer.idf_,
              max_features := vectorizer.max_features,
              ngram_range := vectorizer.ngram_range })],
          messages := ["Model exported to " ++ output_file] }
      | none =>
        { fileWrites := [],
          messages := ["Model type not supported for JSON export",
            "Consider using TensorFlow.js or ONNX.js for complex models"] }

/-- Replay a list of file writes over an abstract mapping from paths to
JSON artifact contents. -/
def applyWrites (contents : String → Option ExportData)
    (writes : List (String × ExportData)) : String → Option ExportData :=
  writes.foldl (fun fs w => fun p => if p = w.1 then some w.2 else fs p) contents

/-- A pandas column of strings: one optional entry per row (`none` =
NaN). -/
abbrev StrCol := List (Option (List Char))

/-- The slice of the DataFrame read from the trainer's input CSV that
`train_model.py` touches: the `title`, `description` and `label`
columns, each present or absent. -/
structure DataFrame where
  title : Option StrCol
  description : Option StrCol
  label : Option (List ℤ)

/-- Python's no-argument `str.split()`: split on runs of whitespace and
drop the empty segments. -/
def pythonSplit (l : List Char) : List (List Char) :=
  (l.splitOnP pySpace).filter (fun w => !w.isEmpty)

/-- The educational keyword list of `extract_features`. -/
def edu_keywords : List (List Char) :=
  [("tutorial").toList, ("lesson").toList, ("course").toList, ("learn").toList,
   ("explain").toList, ("guide").toList, ("how to").toList, ("introduction").toList,
   ("basics").toList, ("advanced").toList, ("concept").toList]

/-- The entertainment keyword list of `extract_features`. -/
def ent_keywords : List (List Char) :=
  [("funny").toList, ("comedy").toList, ("prank").toList, ("fail").toList,
   ("compilation").toList, ("reaction").toList, ("vlog").toList, ("challenge").toList,
   ("gameplay").toList, ("music video").toList, ("song").toList]

/-- The per-row feature columns `extract_features` adds to the
DataFrame. -/
structure Features where
  combined_text : List (List Char)
  title_length : List ℕ
  desc_length : List ℕ
  word_count : List ℕ
  edu_keyword_count : List ℕ
  ent_keyword_count : List ℕ

/-- `extract_features(df)` from `train_model.py`: build
`df['title'].fillna('') + ' ' + df['description'].fillna('')`, apply
`preprocess_text`, and compute the length, word-count and
substring-keyword-count columns.  Accessing an absent column, as pandas
does, raises `KeyError` — modelled as `Except.error`; the `title`
column is read first, then `description`. -/
def extract_features (df : DataFrame) : Except String Features :=
  match df.title with
  | none => Except.error ("KeyError: title")
  | some titles =>
    match df.description with
    | none => Except.error ("KeyError: description")
    | some descs =>
      let combined := (List.zipWith
        (fun t d => (t.getD []) ++ spaceChar :: (d.getD [])) titles descs).map
          preprocess_text
      Except.ok
        { combined_text := combined
          title_length := titles.map (fun t => (t.getD []).length)
          desc_length := descs.map (fun d => (d.getD []).length)
          word_count := combined.map (fun x => (pythonSplit x).length)
          edu_keyword_count :=
            combined.map (fun x => edu_keywords.countP (fun kw => decide (List.IsInfix kw x)))
          ent_keyword_count :=
            combined.map (fun x => ent_keywords.countP (fun kw => decide (List.IsInfix kw x))) }

/-- The required-columns check of `train_model.main`:
`required_cols = ['title', 'label']` must all be present. -/
def checkRequiredCols (df : DataFrame) : Bool :=
  df.title.isSome && df.label.isSome

/-- `train_model.main` after loading the CSV, up to and including
feature extraction: reject the file when a required column is missing
(soft early return with a printed message), otherwise run
`extract_features` (whose own `KeyError` is an uncaught exception in
the source; both are modelled as `Except.error`). -/
def trainMain (df : DataFrame) : Except String Features :=
  if checkRequiredCols df then extract_features df
  else Except.error ("Error: CSV must have columns: [title, label]")

/-- The text handed to `vectorizer.transform` by
`predict.predict_video`: `f"{title} {description}".lower().strip()` —
lower-casing and stripping only, with no character removal and no
whitespace collapsing. -/
def predict_video_text (title description : List Char) : List Char :=
  stripWS pySpace ((title ++ spaceChar :: description).map lowerChar)

example :
    extract_features
      { title := some [some (("abc").toList)], description := none,
        label := some [1] } = Except.error ("KeyError: description") := rfl

example :
    predict_video_text (("Hello,").toList) [] = ("hello,").toList := by decide

example :
    preprocess_text ((("Hello,").toList) ++ spaceChar :: []) = ("hello").toList := by
  decide

/-! ### Lemmas about the character classes and the pipeline stages -/

theorem pySpace_lowerChar (c : Char) : pySpace (lowerChar c) = pySpace c := by
  unfold lowerChar
  split
  · rename_i h
    have hv : (c.toNat + 32).isValidChar := by
      left
      omega
    have ht : (Char.ofNat (c.toNat + 32)).toNat = c.toNat + 32 := by
      simp [Char.ofNat, hv]
      rfl
    have h1 : pySpace (Char.ofNat (c.toNat + 32)) = false := by
      simp [pySpace, ht]
      omega
    have h2 : pySpace c = false := by
      simp [pySpace]
      omega
    rw [h1, h2]
  · rfl

theorem jsSpace_lowerChar (c : Char) : jsSpace (lowerChar c) = jsSpace c := by
  unfold lowerChar
  split
  · rename_i h
    have hv : (c.toNat + 32).isValidChar := by
      left
      omega
    have ht : (Char.ofNat (c.toNat + 32)).toNat = c.toNat + 32 := by
      simp [Char.ofNat, hv]
      rfl
    have h1 : jsSpace (Char.ofNat (c.toNat + 32)) = false := by
      simp [jsSpace, ht]
      omega
    have h2 : jsSpace c = false := by
      simp [jsSpace]
      omega
    rw [h1, h2]
  · rfl

theorem collapseWS_congr {p q : Char → Bool} :
    ∀ l : List Char, (∀ c ∈ l, p c = q c) → collapseWS p l = collapseWS q l
  | [], _ => rfl
  | [c], h => by
    have hc := h c (List.mem_singleton_self c)
    simp only [collapseWS, hc]
  | c :: d :: rest, h => by
    have hc := h c (List.mem_cons_self c (d :: rest))
    have hd := h d (List.mem_cons_of_mem c (List.mem_cons_self d rest))
    have ih := collapseWS_congr (d :: rest) (fun x hx => h x (List.mem_cons_of_mem c hx))
    simp only [collapseWS, hc, hd, ih]

theorem dropWhile_congr {p q : Char → Bool} :
    ∀ l : List Char, (∀ c ∈ l, p c = q c) → l.dropWhile p = l.dropWhile q
  | [], _ => rfl
  | c :: rest, h => by
    have hc := h c (List.mem_cons_self c rest)
    have ih := dropWhile_congr rest (fun x hx => h x (List.mem_cons_of_mem c hx))
    rw [List.dropWhile_cons, List.dropWhile_cons, hc, ih]

theorem stripWS_congr {p q : Char → Bool} (l : List Char)
    (h : ∀ c ∈ l, p c = q c) : stripWS p l = stripWS q l := by
  have h1 : l.dropWhile p = l.dropWhile q := dropWhile_congr l h
  have h2 : ∀ c ∈ (l.dropWhile q).reverse, p c = q c := by
    intro c hc
    exact h c ((List.dropWhile_sublist q).subset (List.mem_reverse.mp hc))
  unfold stripWS
  rw [h1, dropWhile_congr _ h2]

theorem mem_collapseWS {ws : Char → Bool} :
    ∀ l (c : Char), c ∈ collapseWS ws l → c = spaceChar ∨ (c ∈ l ∧ ws c = false)
  | [], c, h => absurd h (List.not_mem_nil c)
  | [d], c, h => by
    by_cases hd : ws d
    · simp only [collapseWS, hd, if_pos] at h
      left
      exact List.mem_singleton.mp h
    · simp only [collapseWS, hd, if_neg] at h
      right
      refine ⟨h, ?_⟩
      rw [List.mem_singleton.mp h]
      exact Bool.eq_false_iff.mpr hd
  | d :: e :: rest, c, h => by
    by_cases hde : ws d && ws e
    · simp only [collapseWS, hde, if_pos] at h
      rcases mem_collapseWS (e :: rest) c h with h1 | h1
      · left; exact h1
      · right; exact ⟨List.mem_cons_of_mem d h1.1, h1.2⟩
    · simp only [collapseWS, hde, if_neg] at h
      rcases List.mem_cons.mp h with h1 | h1
      · by_cases hd : ws d
        · left
          simpa [hd] using h1
        · right
          simp only [hd, if_neg] at h1
          refine ⟨h1 ▸ List.mem_cons_self d (e :: rest), ?_⟩
          rw [h1]
          exact Bool.eq_false_iff.mpr hd
      · rcases mem_collapseWS (e :: rest) c h1 with h2 | h2
        · left; exact h2
        · right; exact ⟨List.mem_cons_of_mem d h2.1, h2.2⟩

theorem spaceChar_pySpace : pySpace spaceChar = true := by decide

theorem spaceChar_jsSpace : jsSpace spaceChar = true := by decide

/-! ### Claim C1 -/

/-- Claim C1, as written, is refuted on characters that the two regex
engines classify differently: on the input `"a\x1cb"` (U+001C is
whitespace for Python's `\s` but not for JavaScript's) the trainer's
`preprocess_text` yields `"a b"` while the scorer's `preprocessText`
yields `"ab"`. -/
theorem C1_counterexample :
    preprocess_text [Char.ofNat 97, Char.ofNat 28, Char.ofNat 98] ≠
      preprocessText [Char.ofNat 97, Char.ofNat 28, Char.ofNat 98] := by decide

/-- Claim C1 (amended): for every input string all of whose characters
are classified identically by Python's `\s` and JavaScript's `\s`
(i.e. containing none of U+001C-U+001F, U+0085, U+FEFF), the companion
scorer's `preprocessText` returns exactly the same string as the
trainer's `preprocess_text`. -/
theorem C1_preprocess_equiv (s : List Char)
    (h : ∀ c ∈ s, pySpace c = jsSpace c) :
    preprocess_text s = preprocessText s := by
  have hmap : ∀ c ∈ s.map lowerChar, pySpace c = jsSpace c := by
    intro c hc
    rcases List.mem_map.mp hc with ⟨a, ha, rfl⟩
    rw [pySpace_lowerChar, jsSpace_lowerChar]
    exact h a ha
  have hfilter : (s.map lowerChar).filter (fun c => isLowerAlnum c || pySpace c) =
      (s.map lowerChar).filter (fun c => isLowerAlnum c || jsSpace c) := by
    apply List.filter_congr
    intro c hc
    rw [hmap c hc]
  have hlf : ∀ c ∈ (s.map lowerChar).filter (fun c => isLowerAlnum c || jsSpace c),
      pySpace c = jsSpace c :=
    fun c hc => hmap c (List.mem_of_mem_filter hc)
  have hcoll := collapseWS_congr _ hlf
  have hstrip : ∀ c ∈ collapseWS jsSpace
      ((s.map lowerChar).filter (fun c => isLowerAlnum c || jsSpace c)),
      pySpace c = jsSpace c := by
    intro c hc
    rcases mem_collapseWS _ c hc with h1 | h1
    · rw [h1, spaceChar_pySpace, spaceChar_jsSpace]
    · exact hlf c h1.1
  unfold preprocess_text preprocessText
  rw [hfilter, hcoll, stripWS_congr _ hstrip]

/-- Witness for the amended claim C1 at a concrete input. -/
theorem C1_preprocess_equiv_witness :
    preprocess_text (("  Mixed CASE  42! ").toList) =
      preprocessText (("  Mixed CASE  42! ").toList) :=
  C1_preprocess_equiv (("  Mixed CASE  42! ").toList) (by decide)

/-! ### Canonical form of normalised strings -/

/-- The characters that can occur in the output of the normalisation
pipeline: lower-case alphanumerics and the plain space. -/
def canonChar (c : Char) : Prop := isLowerAlnum c = true ∨ c = spaceChar

instance (c : Char) : Decidable (canonChar c) :=
  inferInstanceAs (Decidable (isLowerAlnum c = true ∨ c = spaceChar))

/-- Boolean test that a string has no two adjacent spaces. -/
def noAdjSpaces : List Char → Bool
  | c :: d :: rest => (!(c == spaceChar && d == spaceChar)) && noAdjSpaces (d :: rest)
  | _ => true

theorem chain'_of_noAdjSpaces : ∀ l : List Char, noAdjSpaces l = true →
    l.Chain' (fun a b => ¬(a = spaceChar ∧ b = spaceChar))
  | [], _ => List.chain'_nil
  | [c], _ => by simp
  | c :: d :: rest, h => by
    have h' : (!(c == spaceChar && d == spaceChar)) = true ∧
        noAdjSpaces (d :: rest) = true := by
      simpa [noAdjSpaces] using h
    refine List.chain'_cons.mpr ⟨?_, chain'_of_noAdjSpaces (d :: rest) h'.2⟩
    intro hcon
    have hb : (c == spaceChar && d == spaceChar) = true := by
      simp [hcon.1, hcon.2]
    rw [hb] at h'
    simpa using h'.1

theorem canon_ws_eq_space {ws : Char → Bool}
    (halnum : ∀ c, isLowerAlnum c = true → ws c = false) {c : Char}
    (hc : canonChar c) (h : ws c = true) : c = spaceChar := by
  rcases hc with h1 | h1
  · rw [halnum c h1] at h
    simp at h
  · exact h1

theorem map_eq_self_of_fix {f : Char → Char} :
    ∀ l : List Char, (∀ c ∈ l, f c = c) → l.map f = l
  | [], _ => rfl
  | c :: rest, h => by
    rw [List.map_cons, h c (List.mem_cons_self c rest),
      map_eq_self_of_fix rest (fun x hx => h x (List.mem_cons_of_mem c hx))]

theorem lowerChar_canon {c : Char} (hc : canonChar c) : lowerChar c = c := by
  rcases hc with h | h
  · have hn : ¬(65 ≤ c.toNat ∧ c.toNat ≤ 90) := by
      simp only [isLowerAlnum, decide_eq_true_eq] at h
      omega
    exact if_neg hn
  · rw [h]
    decide

theorem collapseWS_head? {ws : Char → Bool} :
    ∀ (d : Char) (rest : List Char),
      (collapseWS ws (d :: rest)).head? = some (if ws d then spaceChar else d)
  | d, [] => by
    by_cases h : ws d <;> simp [collapseWS, h]
  | d, e :: rest => by
    by_cases h : (ws d && ws e) = true
    · have h' : ws d = true ∧ ws e = true := by simpa using h
      have ih := @collapseWS_head? ws e rest
      simp [collapseWS, h'.1, h'.2, ih]
    · simp [collapseWS, h]

theorem collapseWS_chain'_ws {ws : Char → Bool} :
    ∀ l : List Char,
      (collapseWS ws l).Chain' (fun a b => ¬(ws a = true ∧ ws b = true))
  | [] => List.chain'_nil
  | [c] => by
    by_cases h : ws c <;> simp [collapseWS, h]
  | c :: d :: rest => by
    have ih := @collapseWS_chain'_ws ws (d :: rest)
    by_cases h : (ws c && ws d) = true
    · simpa [collapseWS, h] using ih
    · have hcd : ¬(ws c = true ∧ ws d = true) := by simpa using h
      simp only [collapseWS, h, if_false]
      refine List.chain'_cons'.mpr ⟨?_, ih⟩
      intro y hy
      rw [@collapseWS_head? ws d rest] at hy
      have hy' : (if ws d then spaceChar else d) = y := by simpa using hy
      by_cases hcb : ws c = true
      · have hd : ws d = false := by
          rcases Bool.eq_false_or_eq_true (ws d) with h1 | h1
          · exact absurd ⟨hcb, h1⟩ hcd
          · exact h1
        rw [← hy', if_neg (show ¬(ws d = true) by simp [hd])]
        intro hcon
        rw [hcon.2] at hd
        simp at hd
      · rw [if_neg hcb]
        intro hcon
        exact hcb hcon.1

theorem collapseWS_chain'_space {ws : Char → Bool} (hs : ws spaceChar = true)
    (l : List Char) :
    (collapseWS ws l).Chain' (fun a b => ¬(a = spaceChar ∧ b = spaceChar)) := by
  refine (collapseWS_chain'_ws l).imp ?_
  intro a b hab hcon
  exact hab ⟨hcon.1 ▸ hs, hcon.2 ▸ hs⟩

theorem collapseWS_eq_self {ws : Char → Bool}
    (halnum : ∀ c, isLowerAlnum c = true → ws c = false) :
    ∀ l : List Char, (∀ c ∈ l, canonChar c) →
      l.Chain' (fun a b => ¬(a = spaceChar ∧ b = spaceChar)) →
      collapseWS ws l = l
  | [], _, _ => rfl
  | [c], hc, _ => by
    by_cases h : ws c
    · have hsp := canon_ws_eq_space halnum (hc c (List.mem_singleton_self c)) h
      simp [collapseWS, h, hsp]
    · simp [collapseWS, h]
  | c :: d :: rest, hc, hch => by
    have hcc : canonChar c := hc c (List.mem_cons_self c (d :: rest))
    have hcd : canonChar d := hc d (List.mem_cons_of_mem c (List.mem_cons_self d rest))
    have hR := (List.chain'_cons.mp hch).1
    have htail := (List.chain'_cons.mp hch).2
    have ih := collapseWS_eq_self halnum (d :: rest)
      (fun x hx => hc x (List.mem_cons_of_mem c hx)) htail
    have hnot : (ws c && ws d) = false := by
      rcases Bool.eq_false_or_eq_true (ws c) with h1 | h1
      · rcases Bool.eq_false_or_eq_true (ws d) with h2 | h2
        · exact absurd ⟨canon_ws_eq_space halnum hcc h1,
            canon_ws_eq_space halnum hcd h2⟩ hR
        · simp [h2]
      · simp [h1]
    simp only [collapseWS, hnot, Bool.false_eq_true, if_false]
    rw [ih]
    by_cases h1 : ws c = true
    · rw [if_pos h1, canon_ws_eq_space halnum hcc h1]
    · rw [if_neg h1]

theorem head?_dropWhile {ws : Char → Bool} :
    ∀ l : List Char, ∀ c ∈ (l.dropWhile ws).head?, ws c = false
  | [], c, hc => by simp [List.dropWhile] at hc
  | d :: rest, c, hc => by
    rw [List.dropWhile_cons] at hc
    by_cases h : ws d = true
    · rw [if_pos h] at hc
      exact head?_dropWhile rest c hc
    · rw [if_neg h] at hc
      have h2 : (d :: rest).head? = some c := hc
      simp only [List.head?_cons, Option.some.injEq] at h2
      rw [← h2]
      exact Bool.eq_false_iff.mpr h

theorem getLast?_dropWhile {ws : Char → Bool} (l : List Char)
    (h : l.dropWhile ws ≠ []) : (l.dropWhile ws).getLast? = l.getLast? := by
  rcases (List.dropWhile_suffix ws : l.dropWhile ws <:+ l) with ⟨t, ht⟩
  conv_rhs => rw [← ht]
  rw [List.getLast?_append_of_ne_nil _ h]

theorem stripWS_head? {ws : Char → Bool} (l : List Char) :
    ∀ c ∈ (stripWS ws l).head?, ws c = false := by
  intro c hc
  unfold stripWS at hc
  rw [List.head?_reverse] at hc
  by_cases hX : (l.dropWhile ws).reverse.dropWhile ws = []
  · rw [hX] at hc
    simp at hc
  · rw [getLast?_dropWhile _ hX, List.getLast?_reverse] at hc
    exact head?_dropWhile l c hc

theorem stripWS_getLast? {ws : Char → Bool} (l : List Char) :
    ∀ c ∈ (stripWS ws l).getLast?, ws c = false := by
  intro c hc
  unfold stripWS at hc
  rw [List.getLast?_reverse] at hc
  exact head?_dropWhile _ c hc

theorem stripWS_eq_self {ws : Char → Bool} {l : List Char}
    (h1 : ∀ c ∈ l.head?, ws c = false) (h2 : ∀ c ∈ l.getLast?, ws c = false) :
    stripWS ws l = l := by
  have hd : l.dropWhile ws = l := by
    cases l with
    | nil => rfl
    | cons c rest =>
      rw [List.dropWhile_cons, if_neg]
      simp [h1 c rfl]
  unfold stripWS
  rw [hd]
  have hd2 : l.reverse.dropWhile ws = l.reverse := by
    cases hrev : l.reverse with
    | nil => rfl
    | cons c rest =>
      rw [List.dropWhile_cons, if_neg]
      have hcl : c ∈ l.getLast? := by
        rw [← List.head?_reverse, hrev]
        rfl
      simp [h2 c hcl]
  rw [hd2, List.reverse_reverse]

theorem mem_stripWS {ws : Char → Bool} {l : List Char} {c : Char}
    (h : c ∈ stripWS ws l) : c ∈ l := by
  unfold stripWS at h
  rw [List.mem_reverse] at h
  have h2 := (List.dropWhile_sublist ws).subset h
  rw [List.mem_reverse] at h2
  exact (List.dropWhile_sublist ws).subset h2

theorem chain'_space_reverse {l : List Char}
    (h : l.Chain' (fun a b => ¬(a = spaceChar ∧ b = spaceChar))) :
    l.reverse.Chain' (fun a b => ¬(a = spaceChar ∧ b = spaceChar)) := by
  rw [List.chain'_reverse]
  exact h.imp (fun a b hab hba => hab ⟨hba.2, hba.1⟩)

theorem stripWS_chain' {ws : Char → Bool} {l : List Char}
    (h : l.Chain' (fun a b => ¬(a = spaceChar ∧ b = spaceChar))) :
    (stripWS ws l).Chain' (fun a b => ¬(a = spaceChar ∧ b = spaceChar)) := by
  unfold stripWS
  exact chain'_space_reverse
    (((chain'_space_reverse (h.suffix (List.dropWhile_suffix ws))).suffix
      (List.dropWhile_suffix ws)))

theorem pipeline_canonical {ws : Char → Bool} (hs : ws spaceChar = true)
    (s : List Char) :
    (∀ c ∈ stripWS ws (collapseWS ws ((s.map lowerChar).filter
        (fun c => isLowerAlnum c || ws c))), canonChar c) ∧
    (stripWS ws (collapseWS ws ((s.map lowerChar).filter
        (fun c => isLowerAlnum c || ws c)))).Chain'
      (fun a b => ¬(a = spaceChar ∧ b = spaceChar)) := by
  constructor
  · intro c hc
    have h1 := mem_stripWS hc
    rcases mem_collapseWS _ c h1 with h2 | h2
    · right
      exact h2
    · left
      have h3 : isLowerAlnum c = true ∨ ws c = true := by
        simpa using (List.mem_filter.mp h2.1).2
      rcases h3 with h4 | h4
      · exact h4
      · rw [h2.2] at h4
        simp at h4
  · exact stripWS_chain' (collapseWS_chain'_space hs _)

theorem pipelineWS_idem {ws : Char → Bool} (hs : ws spaceChar = true)
    (halnum : ∀ c, isLowerAlnum c = true → ws c = false) (s : List Char) :
    stripWS ws (collapseWS ws
      (((stripWS ws (collapseWS ws ((s.map lowerChar).filter
            (fun c => isLowerAlnum c || ws c)))).map lowerChar).filter
        (fun c => isLowerAlnum c || ws c))) =
      stripWS ws (collapseWS ws ((s.map lowerChar).filter
        (fun c => isLowerAlnum c || ws c))) := by
  obtain ⟨hcanon, hchain⟩ := pipeline_canonical hs s
  rw [map_eq_self_of_fix _ (fun c hc => lowerChar_canon (hcanon c hc))]
  rw [List.filter_eq_self.mpr (fun c hc => by
    rcases hcanon c hc with h | h
    · simp [h]
    · simp [h, hs])]
  rw [collapseWS_eq_self halnum _ hcanon hchain]
  exact stripWS_eq_self (stripWS_head? _) (stripWS_getLast? _)

/-! ### Claim C9 -/

/-- Claim C9 (confirmed): the trainer's `preprocess_text` is idempotent,
and so is the exported scorer's `preprocessText`: applying either
normalisation twice yields the same string as applying it once. -/
theorem C9_preprocess_idempotent (s : List Char) :
    preprocess_text (preprocess_text s) = preprocess_text s ∧
      preprocessText (preprocessText s) = preprocessText s := by
  constructor
  · unfold preprocess_text
    exact pipelineWS_idem spaceChar_pySpace
      (fun c h => by
        simp only [isLowerAlnum, decide_eq_true_eq] at h
        simp only [pySpace, decide_eq_false_iff_not]
        omega) s
  · unfold preprocessText
    exact pipelineWS_idem spaceChar_jsSpace
      (fun c h => by
        simp only [isLowerAlnum, decide_eq_true_eq] at h
        simp only [jsSpace, decide_eq_false_iff_not]
        omega) s

/-! ### Claim C2 -/

/-- Claim C2, as written, is refuted: the `vectorize` loop hardcodes
unigram and bigram extraction, so for the configured range (3, 3) and
the normalized text `"a b c"` the trigram `"a b c"` is never extracted
(while the bigrams `"a b"` and `"b c"`, whose length lies outside the
range, are). -/
theorem C2_counterexample :
    ¬(∀ g, g ∈ vectorizeNgrams (3, 3) (("a b c").toList) ↔
        ∃ n, 3 ≤ n ∧ n ≤ 3 ∧ g ∈ extractNgrams (("a b c").toList) n) := by
  intro h
  have h1 := (h (("a b c").toList)).mpr ⟨3, le_refl 3, le_refl 3, by decide⟩
  exact absurd h1 (by decide)

/-- Claim C2 (amended): for every configured `ngram_range` `(min_n,
max_n)` with `1 ≤ min_n ≤ max_n ≤ 2` — which includes the range (1, 2)
that the trainer always exports — the scorer's vectorization extracts
all and only the n-grams of length `n` for every `min_n ≤ n ≤ max_n`
before vocabulary lookup. -/
theorem C2_ngrams (mn mx : ℕ) (h1 : 1 ≤ mn) (h2 : mn ≤ mx) (h3 : mx ≤ 2)
    (processed : List Char) (g : List Char) :
    g ∈ vectorizeNgrams (mn, mx) processed ↔
      ∃ n, mn ≤ n ∧ n ≤ mx ∧ g ∈ extractNgrams processed n := by
  have hmn2 : mn ≤ 2 := le_trans h2 h3
  interval_cases mn
  · interval_cases mx
    · constructor
      · intro hg
        simp only [vectorizeNgrams] at hg
        rw [if_pos (by omega), if_neg (by omega), List.append_nil] at hg
        exact ⟨1, le_refl 1, le_refl 1, hg⟩
      · rintro ⟨n, hn1, hn2, hg⟩
        have hn : n = 1 := by omega
        subst hn
        simp only [vectorizeNgrams]
        rw [if_pos (by omega), if_neg (by omega), List.append_nil]
        exact hg
    · constructor
      · intro hg
        simp only [vectorizeNgrams] at hg
        rw [if_pos (by omega), if_pos (by omega)] at hg
        rcases List.mem_append.mp hg with hg1 | hg1
        · exact ⟨1, by omega, by omega, hg1⟩
        · exact ⟨2, by omega, by omega, hg1⟩
      · rintro ⟨n, hn1, hn2, hg⟩
        simp only [vectorizeNgrams]
        rw [if_pos (by omega), if_pos (by omega)]
        interval_cases n
        · exact List.mem_append.mpr (Or.inl hg)
        · exact List.mem_append.mpr (Or.inr hg)
  · interval_cases mx
    · constructor
      · intro hg
        simp only [vectorizeNgrams] at hg
        rw [if_neg (by omega), if_pos (by omega), List.nil_append] at hg
        exact ⟨2, le_refl 2, le_refl 2, hg⟩
      · rintro ⟨n, hn1, hn2, hg⟩
        have hn : n = 2 := by omega
        subst hn
        simp only [vectorizeNgrams]
        rw [if_neg (by omega), if_pos (by omega), List.nil_append]
        exact hg

/-- Witness for the amended claim C2 at the exported range (1, 2). -/
theorem C2_ngrams_witness :
    ("a b").toList ∈ vectorizeNgrams (1, 2) (("a b c").toList) ↔
      ∃ n, 1 ≤ n ∧ n ≤ 2 ∧ ("a b").toList ∈ extractNgrams (("a b c").toList) n :=
  C2_ngrams 1 2 (le_refl 1) (by omega) (le_refl 2) (("a b c").toList) (("a b").toList)

/-! ### Claim C3 -/

/-- Whether the `forEach` iteration for token `g` writes to index `i`
of the features array: the vocabulary lookup yields `i` and `i` is
below `maxFeatures`. -/
def hits (m : VideoClassifier) (g : List Char) (i : ℕ) : Bool :=
  match vocabLookup m.vocabulary g with
  | some j => decide (j = i ∧ j < m.maxFeatures)
  | none => false

theorem vocabLookup_mem :
    ∀ (v : List (List Char × ℕ)) (g : List Char) (i : ℕ),
      vocabLookup v g = some i → (g, i) ∈ v
  | [], g, i, h => by simp [vocabLookup] at h
  | p :: rest, g, i, h => by
    by_cases hp : p.1 = g
    · simp only [vocabLookup, if_pos hp] at h
      have h2 : p.2 = i := by simpa using h
      have hgp : (g, i) = p := by
        rw [← hp, ← h2]
      rw [hgp]
      exact List.mem_cons_self p rest
    · simp only [vocabLookup, if_neg hp] at h
      exact List.mem_cons_of_mem p (vocabLookup_mem rest g i h)

theorem foldl_applyNgram_getElem? (m : VideoClassifier) :
    ∀ (toks : List (List Char)) (init : List ℚ) (i : ℕ),
      init.length = m.maxFeatures →
      (toks.foldl (applyNgram m) init)[i]? =
        if toks.any (fun g => hits m g i) then some (idfOr1 m.idf i) else init[i]? := by
  intro toks
  induction toks with
  | nil => intro init i _; simp
  | cons g rest ih =>
    intro init i hlen
    rw [List.foldl_cons]
    have hlen' : (applyNgram m init g).length = m.maxFeatures := by
      cases hlook : vocabLookup m.vocabulary g with
      | none =>
        simp only [applyNgram, hlook]
        exact hlen
      | some j =>
        simp only [applyNgram, hlook]
        by_cases hj : j < m.maxFeatures
        · rw [if_pos hj, List.length_set]
          exact hlen
        · rw [if_neg hj]
          exact hlen
    rw [ih (applyNgram m init g) i hlen']
    by_cases hg : hits m g i = true
    · rw [List.any_cons]
      rw [show (hits m g i || rest.any fun g => hits m g i) = true by simp [hg]]
      rw [if_pos rfl]
      by_cases hrest : rest.any (fun g => hits m g i) = true
      · rw [if_pos hrest]
      · rw [if_neg hrest]
        unfold hits at hg
        cases hlook : vocabLookup m.vocabulary g with
        | none =>
          rw [hlook] at hg
          simp at hg
        | some j =>
          rw [hlook] at hg
          have hji : j = i ∧ j < m.maxFeatures := by simpa using hg
          simp only [applyNgram, hlook]
          rw [if_pos hji.2, hji.1]
          rw [List.getElem?_set_self]
          rw [hlen]
          rw [← hji.1]
          exact hji.2
    · have hg' : hits m g i = false := Bool.eq_false_iff.mpr hg
      rw [List.any_cons, hg', Bool.false_or]
      have hinit : (applyNgram m init g)[i]? = init[i]? := by
        cases hlook : vocabLookup m.vocabulary g with
        | none =>
          simp only [applyNgram, hlook]
        | some j =>
          simp only [applyNgram, hlook]
          by_cases hj : j < m.maxFeatures
          · rw [if_pos hj]
            have hji : j ≠ i := by
              intro hcon
              unfold hits at hg'
              rw [hlook] at hg'
              simp [hcon, hj] at hg'
              omega
            exact List.getElem?_set_ne hji
          · rw [if_neg hj]
      rw [hinit]

theorem rawFeatures_getElem? (m : VideoClassifier) (toks : List (List Char)) (i : ℕ) :
    (rawFeatures m toks)[i]? =
      if toks.any (fun g => hits m g i) then some (idfOr1 m.idf i)
      else (List.replicate m.maxFeatures (0 : ℚ))[i]? :=
  foldl_applyNgram_getElem? m toks (List.replicate m.maxFeatures 0) i
    (List.length_replicate m.maxFeatures 0)

/-- Claim C3 (confirmed under the well-formedness of exported
artifacts): assuming every vocabulary index is below `max_features` and
within the IDF array, and every IDF weight is nonzero (scikit-learn's
smoothed IDF is always ≥ 1), (a) for every token of the input that is
present in the vocabulary, the raw feature at that token's vocabulary
index equals the IDF weight at that index, and (b) the raw feature
vector depends only on which tokens are present, not on how often they
occur. -/
theorem C3_feature_values (m : VideoClassifier)
    (hv : ∀ p ∈ m.vocabulary, p.2 < m.maxFeatures ∧ p.2 < m.idf.length)
    (hidf : ∀ q ∈ m.idf, q ≠ 0) :
    (∀ (text g : List Char) (i : ℕ),
        g ∈ scorerNgrams m text → vocabLookup m.vocabulary g = some i →
        (rawFeatures m (scorerNgrams m text))[i]? = m.idf[i]?) ∧
    (∀ toks₁ toks₂ : List (List Char), (∀ g, g ∈ toks₁ ↔ g ∈ toks₂) →
        rawFeatures m toks₁ = rawFeatures m toks₂) := by
  constructor
  · intro text g i hg hlook
    have hvp := hv (g, i) (vocabLookup_mem m.vocabulary g i hlook)
    have hhit : hits m g i = true := by
      unfold hits
      rw [hlook]
      simp [hvp.1]
    have hany : (scorerNgrams m text).any (fun g => hits m g i) = true :=
      List.any_eq_true.mpr ⟨g, hg, hhit⟩
    rw [rawFeatures_getElem?, if_pos hany]
    rw [List.getElem?_eq_getElem hvp.2]
    unfold idfOr1
    rw [List.getD_eq_getElem?_getD, List.getElem?_eq_getElem hvp.2]
    rw [show (some (m.idf[i])).getD 0 = m.idf[i] from rfl]
    rw [if_neg (hidf _ (List.getElem_mem hvp.2))]
  · intro toks₁ toks₂ hsame
    apply List.ext_getElem?
    intro i
    rw [rawFeatures_getElem?, rawFeatures_getElem?]
    have hany : toks₁.any (fun g => hits m g i) = toks₂.any (fun g => hits m g i) := by
      rcases h2 : toks₂.any (fun g => hits m g i) with h | h
      · rw [List.any_eq_false]
        intro g hg
        have := (List.any_eq_false.mp h2) g ((hsame g).mp hg)
        simpa using this
      · rcases List.any_eq_true.mp h2 with ⟨g, hg, hhit⟩
        exact List.any_eq_true.mpr ⟨g, (hsame g).mpr hg, hhit⟩
    rw [hany]

/-! ### Sample artifacts used by witnesses -/

/-- A tiny concrete classifier: one vocabulary entry, one feature. -/
def sampleClassifier : VideoClassifier :=
  { kind := .logistic_regression [2] 0
    vocabulary := [(("a").toList, 0)]
    idf := [2]
    maxFeatures := 1
    ngramRange := (1, 2) }

/-- A classifier with an empty vocabulary, whose feature vector is
always zero. -/
def zeroClassifier : VideoClassifier :=
  { kind := .logistic_regression [] 0
    vocabulary := []
    idf := []
    maxFeatures := 1
    ngramRange := (1, 2) }

/-- A classifier with no features at all. -/
def emptyClassifier : VideoClassifier :=
  { kind := .logistic_regression [] 0
    vocabulary := []
    idf := []
    maxFeatures := 0
    ngramRange := (1, 2) }

/-- Witness for claim C3 at a concrete classifier and input: the
feature at the vocabulary index of the token `"a"` equals the IDF
weight there, and duplicating the token does not change the raw
feature vector. -/
theorem C3_feature_values_witness :
    (rawFeatures sampleClassifier
        (scorerNgrams sampleClassifier (("a").toList)))[0]? =
      sampleClassifier.idf[0]? ∧
    rawFeatures sampleClassifier [("a").toList, ("a").toList] =
      rawFeatures sampleClassifier [("a").toList] := by
  have h := C3_feature_values sampleClassifier (by decide) (by decide)
  exact ⟨h.1 (("a").toList) (("a").toList) 0 (by decide) (by decide),
    h.2 [("a").toList, ("a").toList] [("a").toList] (fun g => by simp)⟩

/-! ### Claim C4 -/

theorem sumSq_nonneg (l : List ℚ) : 0 ≤ sumSq l := by
  induction l with
  | nil => simp [sumSq]
  | cons x rest ih =>
    have hx : 0 ≤ x * x := mul_self_nonneg x
    have ih' : 0 ≤ (rest.map (fun x => x * x)).sum := ih
    simp only [sumSq, List.map_cons, List.sum_cons]
    linarith

theorem sumSq_pos {l : List ℚ} (h : ∃ x ∈ l, x ≠ 0) : 0 < sumSq l := by
  induction l with
  | nil =>
    rcases h with ⟨x, hx, _⟩
    simp at hx
  | cons y rest ih =>
    rcases h with ⟨x, hx, hx0⟩
    have hy2 : 0 ≤ y * y := mul_self_nonneg y
    have hrest : 0 ≤ (rest.map (fun x => x * x)).sum := sumSq_nonneg rest
    rcases List.mem_cons.mp hx with h1 | h1
    · have hy : 0 < y * y := mul_self_pos.mpr (h1 ▸ hx0)
      simp only [sumSq, List.map_cons, List.sum_cons]
      linarith
    · have hpos : 0 < (rest.map (fun x => x * x)).sum := ih ⟨x, h1, hx0⟩
      simp only [sumSq, List.map_cons, List.sum_cons]
      linarith

theorem sum_div_sq (l : List ℚ) (n : ℝ) :
    (((l.map (fun x : ℚ => (x : ℝ) / n)).map (fun y => y * y)).sum) =
      ((sumSq l : ℚ) : ℝ) / (n * n) := by
  induction l with
  | nil => simp [sumSq]
  | cons x rest ih =>
    have hstep : sumSq (x :: rest) = x * x + sumSq rest := by simp [sumSq]
    rw [hstep]
    simp only [List.map_cons, List.sum_cons, ih]
    push_cast
    ring

/-- Claim C4 (confirmed): the scorer L2-normalises the feature vector
and divides exactly when the norm is nonzero — if every raw feature is
zero the vector is returned unchanged (no division occurs), otherwise
the returned vector has unit L2 norm. -/
theorem C4_l2_normalization (m : VideoClassifier) (text : List Char) :
    ((∀ x ∈ rawFeatures m (scorerNgrams m text), x = 0) →
      vectorize m text =
        (rawFeatures m (scorerNgrams m text)).map (fun x : ℚ => (x : ℝ))) ∧
    ((∃ x ∈ rawFeatures m (scorerNgrams m text), x ≠ 0) →
      l2norm (vectorize m text) = 1) := by
  constructor
  · intro hz
    have hS : sumSq (rawFeatures m (scorerNgrams m text)) = 0 := by
      unfold sumSq
      apply List.sum_eq_zero
      intro y hy
      rcases List.mem_map.mp hy with ⟨x, hx, rfl⟩
      rw [hz x hx]
      ring
    simp only [vectorize, hS]
    norm_num
  · intro hnz
    have hS : 0 < sumSq (rawFeatures m (scorerNgrams m text)) := sumSq_pos hnz
    have hSR : (0 : ℝ) <
        ((sumSq (rawFeatures m (scorerNgrams m text)) : ℚ) : ℝ) := by
      exact_mod_cast hS
    have hn : 0 < Real.sqrt ((sumSq (rawFeatures m (scorerNgrams m text)) : ℚ) : ℝ) :=
      Real.sqrt_pos.mpr hSR
    simp only [vectorize]
    rw [if_pos hn]
    unfold l2norm
    rw [sum_div_sq, Real.mul_self_sqrt hSR.le, div_self (ne_of_gt hSR)]
    exact Real.sqrt_one

/-- Witness for claim C4: the all-zero branch and the unit-norm branch
at concrete classifiers and inputs. -/
theorem C4_l2_normalization_witness :
    vectorize zeroClassifier (("x").toList) =
      (rawFeatures zeroClassifier
        (scorerNgrams zeroClassifier (("x").toList))).map (fun x : ℚ => (x : ℝ)) ∧
    l2norm (vectorize sampleClassifier (("a").toList)) = 1 :=
  ⟨(C4_l2_normalization zeroClassifier (("x").toList)).1 (by decide),
   (C4_l2_normalization sampleClassifier (("a").toList)).2 ⟨2, by decide, by decide⟩⟩

/-! ### Claim C5 -/

theorem sigmoid_pos (x : ℝ) : 0 < sigmoid x := by
  unfold sigmoid
  have := Real.exp_pos (-x)
  positivity

theorem sigmoid_lt_one (x : ℝ) : sigmoid x < 1 := by
  unfold sigmoid
  have hx := Real.exp_pos (-x)
  rw [div_lt_one (by linarith)]
  linarith

theorem jsAdd_none (x : Option ℝ) : jsAdd x none = none := by
  cases x <;> rfl

theorem jsMul_none_left (y : Option ℝ) : jsMul none y = none := by
  cases y <;> rfl

theorem rawFeatures_length (m : VideoClassifier) (toks : List (List Char)) :
    (rawFeatures m toks).length = m.maxFeatures := by
  have h : ∀ (l : List (List Char)) (init : List ℚ),
      (l.foldl (applyNgram m) init).length = init.length := by
    intro l
    induction l with
    | nil => intro init; rfl
    | cons g rest ih =>
      intro init
      rw [List.foldl_cons, ih]
      cases hlook : vocabLookup m.vocabulary g with
      | none => simp only [applyNgram, hlook]
      | some j =>
        simp only [applyNgram, hlook]
        by_cases hj : j < m.maxFeatures
        · rw [if_pos hj, List.length_set]
        · rw [if_neg hj]
  unfold rawFeatures
  rw [h, List.length_replicate]

theorem vectorize_length (m : VideoClassifier) (text : List Char) :
    (vectorize m text).length = m.maxFeatures := by
  simp only [vectorize]
  split
  · rw [List.length_map, rawFeatures_length]
  · rw [List.length_map, rawFeatures_length]

theorem lr_score_some (coefficients : List ℚ) (features : List ℝ) :
    ∀ l : List ℕ, (∀ i ∈ l, i < coefficients.length) → ∀ init : ℝ,
      ∃ s : ℝ, l.foldl
        (fun s i => jsAdd s (jsMul (jsGet coefficients i) (some (features.getD i 0))))
        (some init) = some s
  | [], _, init => ⟨init, rfl⟩
  | i :: rest, h, init => by
    have hi : i < coefficients.length := h i (List.mem_cons_self i rest)
    simp only [List.foldl_cons]
    obtain ⟨v, hv⟩ : ∃ v : ℝ, jsGet coefficients i = some v := by
      refine ⟨((coefficients[i] : ℚ) : ℝ), ?_⟩
      unfold jsGet
      rw [List.getElem?_eq_getElem hi]
      rfl
    rw [hv]
    rw [show jsAdd (some init) (jsMul (some v) (some (features.getD i 0))) =
      some (init + v * features.getD i 0) from rfl]
    exact lr_score_some coefficients features rest
      (fun j hj => h j (List.mem_cons_of_mem i hj)) _

theorem nb_score_some (featureLogProb : List ℚ) (features : List ℝ) :
    ∀ l : List ℕ, (∀ i ∈ l, i < featureLogProb.length) → ∀ init : ℝ,
      ∃ s : ℝ, l.foldl
        (fun s i => if 0 < features.getD i 0 then jsAdd s (jsGet featureLogProb i) else s)
        (some init) = some s
  | [], _, init => ⟨init, rfl⟩
  | i :: rest, h, init => by
    have hi : i < featureLogProb.length := h i (List.mem_cons_self i rest)
    simp only [List.foldl_cons]
    obtain ⟨v, hv⟩ : ∃ v : ℝ, jsGet featureLogProb i = some v := by
      refine ⟨((featureLogProb[i] : ℚ) : ℝ), ?_⟩
      unfold jsGet
      rw [List.getElem?_eq_getElem hi]
      rfl
    by_cases hf : 0 < features.getD i 0
    · rw [if_pos hf, hv]
      rw [show jsAdd (some init) (some v) = some (init + v) from rfl]
      exact nb_score_some featureLogProb features rest
        (fun j hj => h j (List.mem_cons_of_mem i hj)) _
    · rw [if_neg hf]
      exact nb_score_some featureLogProb features rest
        (fun j hj => h j (List.mem_cons_of_mem i hj)) _

theorem predict_eq_sigmoid (m : VideoClassifier) (t d : List Char)
    (hlen : m.maxFeatures ≤ kindParamsLength m.kind) :
    ∃ s : ℝ, predict m t d =
      { prediction := if 1/2 < sigmoid s then 1 else 0
        probability := some (sigmoid s)
        confidence := some (|sigmoid s - 1/2| * 2) } := by
  cases hk : m.kind with
  | logistic_regression coefficients intercept =>
    have hlen' : m.maxFeatures ≤ coefficients.length := by
      rw [hk] at hlen
      exact hlen
    have hbound : ∀ i ∈ List.range (vectorize m (t ++ spaceChar :: d)).length,
        i < coefficients.length := by
      intro i hi
      have h2 := List.mem_range.mp hi
      rw [vectorize_length] at h2
      omega
    obtain ⟨s, hs⟩ := lr_score_some coefficients (vectorize m (t ++ spaceChar :: d))
      (List.range (vectorize m (t ++ spaceChar :: d)).length) hbound (intercept : ℝ)
    refine ⟨s, ?_⟩
    simp only [predict, hk, hs, Option.map_some']
  | naive_bayes featureLogProb classLogPrior =>
    have hlen' : m.maxFeatures ≤ featureLogProb.length := by
      rw [hk] at hlen
      exact hlen
    have hbound : ∀ i ∈ List.range (vectorize m (t ++ spaceChar :: d)).length,
        i < featureLogProb.length := by
      intro i hi
      have h2 := List.mem_range.mp hi
      rw [vectorize_length] at h2
      omega
    obtain ⟨s, hs⟩ := nb_score_some featureLogProb (vectorize m (t ++ spaceChar :: d))
      (List.range (vectorize m (t ++ spaceChar :: d)).length) hbound (classLogPrior : ℝ)
    refine ⟨s, ?_⟩
    simp only [predict, hk, hs, Option.map_some']

/-- A classifier with the exporter's typical logistic-regression shape
when the trained vocabulary (one term here) is smaller than the
`max_features` cap (2 here, 5000 in the real export): the coefficient
array is shorter than the feature vector. -/
def truncatedClassifier : VideoClassifier :=
  { kind := .logistic_regression [1] 0
    vocabulary := [(("a").toList, 0)]
    idf := [2]
    maxFeatures := 2
    ngramRange := (1, 2) }

/-- Claim C5, as written, is refuted on the exporter's typical
artifact: when `max_features` exceeds the coefficient-array length (the
trained vocabulary size), the scoring loop reads
`coefficients[i] = undefined` for `i` past the array end, the product
and running sum become NaN, and the returned probability and confidence
are NaN — not in [0,1]; the prediction silently defaults to 0. -/
theorem C5_counterexample :
    (predict truncatedClassifier (("a").toList) []).probability = none ∧
    (predict truncatedClassifier (("a").toList) []).confidence = none ∧
    (predict truncatedClassifier (("a").toList) []).prediction = 0 := by
  have hk : truncatedClassifier.kind = .logistic_regression [1] 0 := rfl
  have hvl : (vectorize truncatedClassifier ((("a").toList) ++ spaceChar :: [])).length = 2 := by
    rw [vectorize_length]
    rfl
  have hfold : ∀ fs : List ℝ, fs.length = 2 →
      (List.range fs.length).foldl
        (fun s i => jsAdd s (jsMul (jsGet [1] i) (some (fs.getD i 0))))
        (some ((0 : ℚ) : ℝ)) = none := by
    intro fs h2
    rw [h2, show List.range 2 = [0, 1] from rfl]
    simp only [List.foldl_cons, List.foldl_nil]
    rw [show jsGet ([1] : List ℚ) 1 = none from rfl, jsMul_none_left, jsAdd_none]
  refine ⟨?_, ?_, ?_⟩
  · simp only [predict, hk]
    rw [hfold _ hvl]
    rfl
  · simp only [predict, hk]
    rw [hfold _ hvl]
    rfl
  · simp only [predict, hk]
    rw [hfold _ hvl]
    rfl

/-- Claim C5 (amended): for every classifier whose kind-specific
parameter vector is at least `max_features` long — so the scoring loop
never reads past its end — and every (title, description) input, the
scorer returns {prediction, probability, confidence} with a real
(non-NaN) probability in [0, 1], the prediction 0 or 1 according to
the 0.5 threshold on the probability, and confidence =
|probability − 0.5| × 2, which lies in [0, 1]. -/
theorem C5_predict_output (m : VideoClassifier) (title description : List Char)
    (hlen : m.maxFeatures ≤ kindParamsLength m.kind) :
    ∃ p c : ℝ,
      (predict m title description).probability = some p ∧
      (predict m title description).confidence = some c ∧
      (p ≤ 1/2 → (predict m title description).prediction = 0) ∧
      (1/2 < p → (predict m title description).prediction = 1) ∧
      0 ≤ p ∧ p ≤ 1 ∧ c = |p - 1/2| * 2 ∧ 0 ≤ c ∧ c ≤ 1 := by
  obtain ⟨s, hs⟩ := predict_eq_sigmoid m title description hlen
  rw [hs]
  have h0 := sigmoid_pos s
  have h1 := sigmoid_lt_one s
  have habs : |sigmoid s - 1/2| ≤ 1/2 := abs_le.mpr ⟨by linarith, by linarith⟩
  refine ⟨sigmoid s, |sigmoid s - 1/2| * 2, rfl, rfl, ?_, ?_, le_of_lt h0,
    le_of_lt h1, rfl, ?_, ?_⟩
  · intro hp
    show (if 1/2 < sigmoid s then 1 else 0) = 0
    rw [if_neg (not_lt.mpr hp)]
  · intro hp
    show (if 1/2 < sigmoid s then 1 else 0) = 1
    rw [if_pos hp]
  · show 0 ≤ |sigmoid s - 1/2| * 2
    positivity
  · show |sigmoid s - 1/2| * 2 ≤ 1
    linarith

/-- Witness for the amended claim C5 at a concrete classifier whose
coefficient array is as long as `max_features`. -/
theorem C5_predict_output_witness :
    ∃ p c : ℝ,
      (predict emptyClassifier [] []).probability = some p ∧
      (predict emptyClassifier [] []).confidence = some c ∧
      (p ≤ 1/2 → (predict emptyClassifier [] []).prediction = 0) ∧
      (1/2 < p → (predict emptyClassifier [] []).prediction = 1) ∧
      0 ≤ p ∧ p ≤ 1 ∧ c = |p - 1/2| * 2 ∧ 0 ≤ c ∧ c ≤ 1 :=
  C5_predict_output emptyClassifier [] [] (by decide)

/-! ### Claim C6 -/

/-- Claim C6 (confirmed): for a persisted model with neither a
coefficient vector (`coef_`) nor per-feature log-probabilities
(`feature_log_prob_`) — e.g. a random forest — the exporter prints the
"not supported for JSON export" message and returns early: it performs
no file write, so any prior contents of the output file are left
unchanged. -/
theorem C6_unsupported_export (fs : String → Option (SkModel × VecState))
    (model_type output_file : String) (model : SkModel) (vec : VecState)
    (hload : fs (model_path model_type) = some (model, vec))
    (hc : model.coef_ = none) (hf : model.feature_log_prob_ = none) :
    (export_to_json fs model_type output_file).fileWrites = [] ∧
    (export_to_json fs model_type output_file).messages =
      ["Model type not supported for JSON export",
        "Consider using TensorFlow.js or ONNX.js for complex models"] ∧
    ∀ contents : String → Option ExportData,
      applyWrites contents (export_to_json fs model_type output_file).fileWrites =
        contents := by
  have hexp : export_to_json fs model_type output_file =
      { fileWrites := [],
        messages := ["Model type not supported for JSON export",
          "Consider using TensorFlow.js or ONNX.js for complex models"] } := by
    simp only [export_to_json, hload, hc, hf]
  rw [hexp]
  exact ⟨rfl, rfl, fun contents => rfl⟩

/-- A loaded model carrying neither `coef_` nor `feature_log_prob_`,
like a persisted random forest. -/
def unsupportedModel : SkModel :=
  { coef_ := none, intercept_ := none, feature_log_prob_ := none,
    class_log_prior_ := [] }

/-- A sample fitted-vectorizer state. -/
def sampleVec : VecState :=
  { vocabulary_ := [(("a").toList, 0)], idf_ := [2], max_features := 1,
    ngram_range := (1, 2) }

/-- A file system holding a random-forest model at its conventional
path. -/
def sampleFS : String → Option (SkModel × VecState) :=
  fun p =>
    if p = ("models/random_forest_model.pkl") then some (unsupportedModel, sampleVec)
    else none

/-- Witness for claim C6: exporting the persisted random forest writes
nothing and prints the unsupported-type message. -/
theorem C6_unsupported_export_witness :
    (export_to_json sampleFS ("random_forest")
      ("models/model_for_extension.json")).fileWrites = [] ∧
    (export_to_json sampleFS ("random_forest")
      ("models/model_for_extension.json")).messages =
      ["Model type not supported for JSON export",
        "Consider using TensorFlow.js or ONNX.js for complex models"] := by
  have h := C6_unsupported_export sampleFS ("random_forest")
    ("models/model_for_extension.json") unsupportedModel sampleVec rfl rfl rfl
  exact ⟨h.1, h.2.1⟩

/-! ### Claim C7 -/

/-- A DataFrame with only the two required columns `title` and
`label`, the `description` column being absent. -/
def dfTitleLabel : DataFrame :=
  { title := some [some (("python tutorial").toList)]
    description := none
    label := some [1] }

/-- Claim C7 states the intended contract (a CSV with at least
{title, label} is accepted, description optional), which matches the
trainer's own required-columns check — but the code then violates it:
`extract_features` unconditionally reads `df['description']`, so a CSV
without a description column passes the check and then raises
`KeyError: 'description'` instead of running feature extraction.  The
code path is evaluated here at such a DataFrame. -/
theorem C7_missing_description_keyerror :
    checkRequiredCols dfTitleLabel = true ∧
      trainMain dfTitleLabel = Except.error ("KeyError: description") :=
  ⟨rfl, rfl⟩

/-! ### Claim C8 -/

theorem isLowerAlnum_not_pySpace (c : Char) (h : isLowerAlnum c = true) :
    pySpace c = false := by
  simp only [isLowerAlnum, decide_eq_true_eq] at h
  simp only [pySpace, decide_eq_false_iff_not]
  omega

/-- Claim C8, as written, is refuted: `predict_video` only lower-cases
and strips the combined text; it removes no special characters and
collapses no interior whitespace, so on "Hello," / "World!" it feeds
`"hello, world!"` to the vectorizer while the trainer's preprocessing
yields `"hello world"`. -/
theorem C8_counterexample :
    predict_video_text (("Hello,").toList) (("World!").toList) ≠
      preprocess_text ((("Hello,").toList) ++ spaceChar :: (("World!").toList)) := by
  decide

/-- Claim C8 (amended): the Predictor applies only lower-casing and
stripping to the combined `title description` text before the
vectorizer; this coincides with the Trainer's preprocessing exactly
when the lowered combined text consists of characters in
[a-z0-9 space] with no two adjacent spaces. -/
theorem C8_predict_preprocess (title description : List Char)
    (hcanon : ∀ c ∈ (title ++ spaceChar :: description).map lowerChar, canonChar c)
    (hchain : ((title ++ spaceChar :: description).map lowerChar).Chain'
      (fun a b => ¬(a = spaceChar ∧ b = spaceChar))) :
    predict_video_text title description =
      preprocess_text (title ++ spaceChar :: description) := by
  unfold predict_video_text preprocess_text
  rw [List.filter_eq_self.mpr (fun c hc => by
    rcases hcanon c hc with h | h
    · simp [h]
    · simp [h, spaceChar_pySpace])]
  rw [collapseWS_eq_self isLowerAlnum_not_pySpace _ hcanon hchain]

/-- Witness for the amended claim C8 at a concrete clean input. -/
theorem C8_predict_preprocess_witness :
    predict_video_text (("Some").toList) (("Title 42").toList) =
      preprocess_text ((("Some").toList) ++ spaceChar :: (("Title 42").toList)) :=
  C8_predict_preprocess (("Some").toList) (("Title 42").toList) (by decide)
    (chain'_of_noAdjSpaces _ (by decide))

/-! ### Claim C10 -/

/-- Claim C10 (confirmed): the exported `type` discriminator is chosen
from the loaded object's attributes alone — any model carrying `coef_`
is exported as "logistic_regression", otherwise any model carrying
`feature_log_prob_` as "naive_bayes" — for every requested model name;
the name enters only through the path `models/{name}_model.pkl` that
selects which file is loaded. -/
theorem C10_type_from_attributes (fs : String → Option (SkModel × VecState))
    (model_type output_file : String) (model : SkModel) (vec : VecState)
    (hload : fs (model_path model_type) = some (model, vec)) :
    (∀ cs, model.coef_ = some cs →
      ∃ a, (export_to_json fs model_type output_file).fileWrites =
          [(output_file, a)] ∧ a.type = "logistic_regression") ∧
    (model.coef_ = none → ∀ fl, model.feature_log_prob_ = some fl →
      ∃ a, (export_to_json fs model_type output_file).fileWrites =
          [(output_file, a)] ∧ a.type = "naive_bayes") := by
  constructor
  · intro cs hc
    simp only [export_to_json, hload, hc]
    exact ⟨_, rfl, rfl⟩
  · intro hc fl hf
    simp only [export_to_json, hload, hc, hf]
    exact ⟨_, rfl, rfl⟩

/-- A logistic-regression-shaped model (it carries `coef_`). -/
def coefModel : SkModel :=
  { coef_ := some [[1]], intercept_ := some [0], feature_log_prob_ := none,
    class_log_prior_ := [] }

/-- A file system in which the file named after naive bayes actually
holds a model carrying `coef_`. -/
def mislabeledFS : String → Option (SkModel × VecState) :=
  fun p =>
    if p = ("models/naive_bayes_model.pkl") then some (coefModel, sampleVec)
    else none

/-- Witness for claim C10: requesting `--model naive_bayes` while the
persisted file holds a coefficient model still exports
type "logistic_regression". -/
theorem C10_type_from_attributes_witness :
    ((export_to_json mislabeledFS ("naive_bayes")
        ("models/model_for_extension.json")).fileWrites.map
      (fun w => w.2.type)) = ["logistic_regression"] := by
  obtain ⟨a, ha, hta⟩ := (C10_type_from_attributes mislabeledFS ("naive_bayes")
    ("models/model_for_extension.json") coefModel sampleVec rfl).1 [[1]] rfl
  rw [ha]
  simp [hta]

end PomodoroML
